import Mathlib

/-!
Verification of the Gene-Disease-Trends pipeline.

Shallow embedding of the core of the repository:
 - `src/ner.py`              : per-document identifier filtering and gene x disease
                               cross-product pairing (`extract_gene_disease_pairs`);
 - `src/graph_builder.py`    : identifier validation and the fold building the
                               co-mention graph (`build_temporal_graph`);
 - `src/temporal_analysis.py`: per-edge temporal statistics (`analyze_temporal_edges`);
 - `src/data_retrieval.py`   : the cached year-by-year retrieval loop
                               (`retrieve_full_data`) and the search retry loop
                               (`_search_year`), with network responses abstracted
                               as oracles.

Modelling conventions: Python strings are Lean `String`s (character predicates
modelled on ASCII); Python `set`s and `Counter`/`dict`s, whose iteration order is
insertion order for dicts and is modelled here as first-occurrence order, become
duplicate-free lists built by `firstOccs`; float division becomes exact division
in `ℚ`; exceptions become explicit `Except` values or option types.
-/

/-- Python `str.isdigit` restricted to ASCII, on a character list:
nonempty and all characters decimal digits. -/
def pyIsDigitChars (l : List Char) : Bool :=
  !l.isEmpty && l.all Char.isDigit

/-- Python `str.isdigit` on a string (e.g. `"ABC".isdigit() == False`,
`"".isdigit() == False`, `"123".isdigit() == True`). -/
def pyIsDigit (s : String) : Bool :=
  pyIsDigitChars s.data

/-- Python `str.isalnum` restricted to ASCII, on a character list. -/
def pyIsAlnumChars (l : List Char) : Bool :=
  !l.isEmpty && l.all Char.isAlphanum

/-- Python `int(s)` for a string of decimal digits. -/
def pyInt (s : String) : Int :=
  Int.ofNat (s.data.foldl (fun n c => n * 10 + (c.toNat - '0'.toNat)) 0)

/-- `l₁` is a prefix of `l₂` (Python `str.startswith`, on character lists). -/
def startsWithChars {α : Type} [DecidableEq α] : List α → List α → Bool
  | [], _ => true
  | _ :: _, [] => false
  | p :: ps, c :: cs => decide (p = c) && startsWithChars ps cs

/-- The characters after the first `':'` — the `core` of Python
`prefix, core = did.split(':', 1)` in `src/ner.py`. -/
def afterFirstColon : List Char → List Char
  | [] => []
  | c :: cs => if c = ':' then cs else afterFirstColon cs

/-- The distinct elements of `l` in order of first occurrence: the model of a
Python `set` built by inserting the elements of `l` left to right (and of the
key order of `collections.Counter(l)`, which is dict insertion order). -/
def firstOccs {α : Type} [DecidableEq α] : List α → List α
  | [] => []
  | x :: xs => x :: (firstOccs xs).filter (fun b => decide (b ≠ x))

theorem mem_firstOccs {α : Type} [DecidableEq α] (l : List α) (a : α) :
    a ∈ firstOccs l ↔ a ∈ l := by
  induction l with
  | nil => simp [firstOccs]
  | cons x xs ih =>
    simp only [firstOccs, List.mem_cons, List.mem_filter, ih, decide_eq_true_eq]
    constructor
    · rintro (rfl | ⟨h, _⟩)
      · exact .inl rfl
      · exact .inr h
    · rintro (rfl | h)
      · exact .inl rfl
      · by_cases hx : a = x
        · exact .inl hx
        · exact .inr ⟨h, hx⟩

theorem nodup_firstOccs {α : Type} [DecidableEq α] (l : List α) :
    (firstOccs l).Nodup := by
  induction l with
  | nil => simp [firstOccs]
  | cons x xs ih =>
    simp only [firstOccs, List.nodup_cons]
    refine ⟨fun hx => ?_, ih.filter _⟩
    simp [List.mem_filter] at hx

/-! ## Pair extraction (`src/ner.py`, `extract_gene_disease_pairs`) -/

/-- One gene–disease co-mention pair `(pmid, gene_id, disease_id, year)`. -/
structure GDPair where
  pmid : String
  gene : String
  disease : String
  year : String
deriving DecidableEq, Repr

/-- The disease-identifier filter of `extract_gene_disease_pairs`
(`src/ner.py` lines 109–116): keep `did` if it contains `':'` and the part
after the first `':'` is alphanumeric, else if it starts with `'D'` followed
by digits only. -/
def nerDiseaseKeep (d : String) : Bool :=
  if d.data.contains ':' then pyIsAlnumChars (afterFirstColon d.data)
  else startsWithChars ['D'] d.data && pyIsDigitChars (d.data.drop 1)

/-- The set of valid gene identifiers of one document, as the Python set
comprehension `{gid for *_, gid in tags["genes"] if gid.isdigit()}` — distinct
digit-only raw identifiers. -/
def validGenes (raws : List String) : List String :=
  firstOccs (raws.filter pyIsDigit)

/-- The set of valid disease identifiers of one document (the `diseases`
set built by the loop in `src/ner.py` lines 109–116). -/
def validDiseases (raws : List String) : List String :=
  firstOccs (raws.filter nerDiseaseKeep)

/-- The pairs contributed by one document: the cross-product
`for g in genes: for d in diseases: results.append((pmid, g, d, year))`. -/
def perDocPairs (pmid year : String) (geneRaws diseaseRaws : List String) :
    List GDPair :=
  (validGenes geneRaws).flatMap fun g =>
    (validDiseases diseaseRaws).map fun d => ⟨pmid, g, d, year⟩

/-- One tagged document, as consumed by the extraction loop: its pmid and the
raw gene/disease identifier strings tagged anywhere in it. -/
structure TaggedDoc where
  pmid : String
  geneIds : List String
  diseaseIds : List String
deriving DecidableEq, Repr

/-- The whole extraction loop of `extract_gene_disease_pairs`: results from
every document, with the year looked up as `year_map.get(pmid, "")`. -/
def extractGeneDiseasePairs (docs : List TaggedDoc)
    (yearMap : List (String × String)) : List GDPair :=
  docs.flatMap fun doc =>
    perDocPairs doc.pmid ((yearMap.lookup doc.pmid).getD "") doc.geneIds doc.diseaseIds

example : perDocPairs "1111" "1999" ["1", "2"] ["D000001"] =
    [⟨"1111", "1", "D000001", "1999"⟩, ⟨"1111", "2", "D000001", "1999"⟩] := by decide

example : perDocPairs "1111" "1999" ["ABC"] ["MESH:D000123", "XYZ"] = [] := by decide

example : validDiseases ["MESH:D000123", "XYZ"] = ["MESH:D000123"] := by decide

/-! ## Graph construction (`src/graph_builder.py`) -/

/-- The `type` node attribute set by `build_temporal_graph`. -/
inductive NodeType where
  | gene : NodeType
  | disease : NodeType
deriving DecidableEq, Repr

/-- `is_valid_gene_id` (`src/graph_builder.py` line 11): digit-only string. -/
def is_valid_gene_id (gene_id : String) : Bool :=
  pyIsDigit gene_id

/-- `is_valid_disease_id` (`src/graph_builder.py` lines 15–19):
starts with `"MESH:"` or `"OMIM:"`, or is `'D'` followed by digits only. -/
def is_valid_disease_id (disease_id : String) : Bool :=
  startsWithChars ['M', 'E', 'S', 'H', ':'] disease_id.data ||
  startsWithChars ['O', 'M', 'I', 'M', ':'] disease_id.data ||
  (startsWithChars ['D'] disease_id.data && pyIsDigitChars (disease_id.data.drop 1))

/-- One undirected co-mention edge with its evidence arrays. `src` and `dst`
record the endpoints in the orientation of first insertion
(`G.add_edge(gene, disease, pmids=[pmid], years=[year])`). -/
structure GDEdge where
  src : String
  dst : String
  pmids : List String
  years : List String
deriving DecidableEq, Repr

/-- The co-mention graph: node list with `type` attributes (insertion order,
first insertion wins) and edge list. -/
structure GDGraph where
  nodes : List (String × NodeType)
  edges : List GDEdge
deriving DecidableEq, Repr

/-- Node-attribute lookup (`G.nodes[u].get("type")`): first entry wins. -/
def typeOf : List (String × NodeType) → String → Option NodeType
  | [], _ => none
  | (k, t) :: rest, s => if s = k then some t else typeOf rest s

/-- `G.add_node(s, type=t)` guarded by `if not G.has_node(s)`. -/
def addNode (G : GDGraph) (s : String) (t : NodeType) : GDGraph :=
  if (typeOf G.nodes s).isSome then G
  else { G with nodes := G.nodes ++ [(s, t)] }

/-- `G.has_edge(a, b)` on the undirected graph: the stored edge joins `a` and
`b` in either orientation. -/
def edgeMatch (a b : String) (e : GDEdge) : Bool :=
  (decide (e.src = a) && decide (e.dst = b)) ||
  (decide (e.src = b) && decide (e.dst = a))

/-- The edge half of the loop body of `build_temporal_graph`
(`src/graph_builder.py` lines 45–48): either append `pmid`/`year` to the
evidence arrays of the existing edge or create the edge with singleton
arrays. -/
def addPairEdges (G2 : GDGraph) (p : GDPair) : GDGraph :=
  if G2.edges.any (edgeMatch p.gene p.disease) then
    { G2 with
      edges := G2.edges.map fun e =>
        if edgeMatch p.gene p.disease e then
          { e with pmids := e.pmids ++ [p.pmid], years := e.years ++ [p.year] }
        else e }
  else
    { G2 with edges := G2.edges ++ [⟨p.gene, p.disease, [p.pmid], [p.year]⟩] }

/-- One pass of the pair loop, split as: validate, ensure both nodes (typed on
first insertion), then update the edge via `addPairEdges`. -/
def addPair (G : GDGraph) (p : GDPair) : GDGraph :=
  if is_valid_gene_id p.gene && is_valid_disease_id p.disease then
    addPairEdges (addNode (addNode G p.gene NodeType.gene) p.disease NodeType.disease) p
  else G

/-- `build_temporal_graph` on a pre-extracted pair list: fold the pairs into
the empty graph. -/
def build_temporal_graph (pairs : List GDPair) : GDGraph :=
  pairs.foldl addPair ⟨[], []⟩

example :
    build_temporal_graph
      [⟨"10", "7", "MESH:D1", "2000"⟩, ⟨"11", "7", "MESH:D1", "2001"⟩] =
    ⟨[("7", NodeType.gene), ("MESH:D1", NodeType.disease)],
     [⟨"7", "MESH:D1", ["10", "11"], ["2000", "2001"]⟩]⟩ := by decide

/-! ## Temporal analysis (`src/temporal_analysis.py`, `analyze_temporal_edges`) -/

/-- The temporal statistics of one edge (`burstiness` is Python float division,
modelled exactly in `ℚ`). -/
structure TStats where
  first_mention : Int
  peak_year : Int
  time_to_peak : Int
  total_mentions : Nat
  peak_count : Nat
  burstiness : ℚ
deriving DecidableEq, Repr

/-- `collections.Counter(years)` as an association list in key insertion
order (= first-occurrence order of `years`). -/
def counterOf (l : List Int) : List (Int × Nat) :=
  (firstOccs l).map fun k => (k, l.count k)

/-- Python `max(items, key=lambda x: x[1])` starting from `best`: a later item
replaces the current best only when its second component is strictly greater,
so the first item attaining the maximum wins. -/
def maxBySnd : (Int × Nat) → List (Int × Nat) → (Int × Nat)
  | best, [] => best
  | best, p :: ps => maxBySnd (if best.2 < p.2 then p else best) ps

/-- Python `min(iterable)` of the nonempty list `x :: xs`: a later element
replaces the current best only when strictly smaller. -/
def listMin (x : Int) : List Int → Int
  | [] => x
  | y :: ys => listMin (min x y) ys

/-- Python `min(cnt)`: the minimum of the `Counter`'s keys in iteration order.
The `[]` fallback is unreachable in `analyze_temporal_edges` (the counter is
built from a nonempty list). -/
def firstKey : List (Int × Nat) → Int
  | [] => 0
  | c :: cs => listMin c.1 (cs.map Prod.fst)

/-- Python `max(cnt.items(), key=lambda x: x[1])`. The `[]` fallback is
unreachable in `analyze_temporal_edges`. -/
def peakOf : List (Int × Nat) → Int × Nat
  | [] => (0, 0)
  | c :: cs => maxBySnd c cs

/-- Python `sum(cnt.values())`. -/
def totalOf (cnt : List (Int × Nat)) : Nat :=
  (cnt.map Prod.snd).sum

/-- The statistics block of `analyze_temporal_edges` (`src/temporal_analysis.py`
lines 43–59) on a nonempty parsed year list `y :: ys`:
`cnt = Counter(years)`, `first = min(cnt)`,
`peak, peak_count = max(cnt.items(), key=lambda x: x[1])`,
`total = sum(cnt.values())`, `burst = peak_count / total if total else 0.0`. -/
def statsOf (y : Int) (ys : List Int) : TStats :=
  let cnt := counterOf (y :: ys)
  { first_mention := firstKey cnt
    peak_year := (peakOf cnt).1
    time_to_peak := (peakOf cnt).1 - firstKey cnt
    total_mentions := totalOf cnt
    peak_count := (peakOf cnt).2
    burstiness := if totalOf cnt = 0 then 0
      else ((peakOf cnt).2 : ℚ) / (totalOf cnt : ℚ) }

/-- Per-edge year handling of `analyze_temporal_edges` (lines 40–42): parse the
digit-only entries of the edge's `years` strings, skip the edge (`none`) when
none remain, else compute the statistics. -/
def analyzeEdgeYears (rawYears : List String) : Option TStats :=
  match (rawYears.filter pyIsDigit).map pyInt with
  | [] => none
  | y :: ys => some (statsOf y ys)

/-- One report row: edge endpoints oriented as gene/disease plus statistics. -/
structure EdgeRow where
  gene : String
  disease : String
  stats : TStats
deriving DecidableEq, Repr

/-- Endpoint orientation of `analyze_temporal_edges` (lines 28–38): read both
node types; `(u, v)` when `u` is the gene and `v` the disease, the swap when
reversed, `none` (edge skipped, `skipped += 1`) otherwise. -/
def orientEdge (G : GDGraph) (e : GDEdge) : Option (String × String) :=
  let tu := typeOf G.nodes e.src
  let tv := typeOf G.nodes e.dst
  if tu = some NodeType.gene ∧ tv = some NodeType.disease then some (e.src, e.dst)
  else if tv = some NodeType.gene ∧ tu = some NodeType.disease then some (e.dst, e.src)
  else none

/-- The edge loop of `analyze_temporal_edges`: the unsorted record list and the
`skipped` counter of edges with bad endpoint types. (The final
`df.sort_values("total_mentions", ascending=False)` is pandas code outside this
embedding.) -/
def analyzeStep (G : GDGraph) (acc : List EdgeRow × Nat) (e : GDEdge) :
    List EdgeRow × Nat :=
  match orientEdge G e with
  | none => (acc.1, acc.2 + 1)
  | some (g, d) =>
    match analyzeEdgeYears e.years with
    | none => acc
    | some st => (acc.1 ++ [⟨g, d, st⟩], acc.2)

def analyzeGraphEdges (G : GDGraph) : List EdgeRow × Nat :=
  G.edges.foldl (analyzeStep G) ([], 0)

example :
    analyzeEdgeYears ["2000", "2000", "2001"] =
      some ⟨2000, 2000, 0, 3, 2, (2 : ℚ) / 3⟩ := by
  have hp : (["2000", "2000", "2001"].filter pyIsDigit).map pyInt =
      [2000, 2000, 2001] := by decide
  have hc : counterOf [2000, 2000, 2001] = [(2000, 2), (2001, 1)] := by decide
  simp only [analyzeEdgeYears, hp, statsOf, hc]
  norm_num [maxBySnd, listMin, firstKey, peakOf, totalOf]

example :
    analyzeEdgeYears ["2000", "2001"] =
      some ⟨2000, 2000, 0, 2, 1, (1 : ℚ) / 2⟩ := by
  have hp : (["2000", "2001"].filter pyIsDigit).map pyInt = [2000, 2001] := by decide
  have hc : counterOf [2000, 2001] = [(2000, 1), (2001, 1)] := by decide
  simp only [analyzeEdgeYears, hp, statsOf, hc]
  norm_num [maxBySnd, listMin, firstKey, peakOf, totalOf]

/-! ## Data retrieval (`src/data_retrieval.py`) -/

/-- One fetched PubMed record (`_fetch_pmids`). -/
structure PubRecord where
  pmid : String
  title : String
  abstract : String
  year : String
deriving DecidableEq, Repr

/-- The persisted per-term cache file
`{"completed_years": [...], "records": [...]}`. -/
structure CacheData where
  completed_years : List Int
  records : List PubRecord
deriving DecidableEq, Repr

/-- `range(start_year, end_year + 1)` over `Int`. -/
def yearRange (s e : Int) : List Int :=
  (List.range (e + 1 - s).toNat).map fun i => s + (i : Int)

/-- The body of the year loop of `retrieve_full_data` (`src/data_retrieval.py`
lines 141–168) for one `year`. The accumulator is
`(data, existing pmids, updated)`; `done` is the completed-year set computed
once before the loop and never updated inside it; `search` and `fetch` are
oracles standing for `_search_year` and `_fetch_pmids`. -/
def retrieveStep (now : Int) (search : Int → List String)
    (fetch : List String → List PubRecord) (done : List Int)
    (acc : CacheData × List String × Bool) (year : Int) :
    CacheData × List String × Bool :=
  if year ∈ done ∧ year ≠ now then acc
  else
    let pmids := search year
    if pmids.isEmpty then
      if year ≠ now then
        ({ acc.1 with completed_years := acc.1.completed_years ++ [year] },
         acc.2.1, true)
      else acc
    else
      let newPmids := pmids.filter fun p => !(acc.2.1.contains p)
      if newPmids.isEmpty then
        if year ≠ now then
          ({ acc.1 with completed_years := acc.1.completed_years ++ [year] },
           acc.2.1, true)
        else acc
      else
        let recs := fetch newPmids
        ({ completed_years :=
             if year ≠ now then acc.1.completed_years ++ [year]
             else acc.1.completed_years,
           records := acc.1.records ++ recs },
         acc.2.1 ++ newPmids, true)

/-- `retrieve_full_data` (lines 123–176) with the loaded cache `init`, the
current calendar year `now` and network oracles: returns the final in-memory
cache data and the `updated` flag. -/
def retrieve_full_data (now : Int) (search : Int → List String)
    (fetch : List String → List PubRecord) (start endY : Int)
    (init : CacheData) : CacheData × Bool :=
  let done := init.completed_years
  let existing := init.records.map PubRecord.pmid
  let r := (yearRange start endY).foldl (retrieveStep now search fetch done)
    (init, existing, false)
  (r.1, r.2.2)

/-- The cache file contents after a run: `_save_data` runs only
`if updated`, so the file keeps `init` when nothing changed. -/
def persistedCache (now : Int) (search : Int → List String)
    (fetch : List String → List PubRecord) (start endY : Int)
    (init : CacheData) : CacheData :=
  let r := retrieve_full_data now search fetch start endY init
  if r.2 then r.1 else init

/-! ## Year search retry loop (`src/data_retrieval.py`, `_search_year`) -/

/-- One HTTP response to the esearch request, abstracted: status code and
the decoded `esearchresult.idlist`. -/
structure HTTPResponse where
  status : Nat
  idlist : List String
deriving DecidableEq, Repr

/-- `requests.Response.raise_for_status()`: raises `HTTPError` exactly for
status codes in `[400, 600)`. -/
def raiseForStatus (r : HTTPResponse) : Except Unit Unit :=
  if 400 ≤ r.status ∧ r.status < 600 then Except.error () else Except.ok ()

/-- The retry loop of `_search_year` (lines 63–78) over the sequence of
responses the attempts would receive: a 429 consumes one attempt and retries;
otherwise an `HTTPError` from `raise_for_status` is caught and the function
returns `[]`; otherwise the idlist is returned. An exhausted response list
(retry cap reached) returns `[]`. The function is total: no exception
escapes. -/
def searchYearLoop : List HTTPResponse → List String
  | [] => []
  | r :: rest =>
    if r.status = 429 then searchYearLoop rest
    else
      match raiseForStatus r with
      | Except.error _ => []
      | Except.ok _ => r.idlist

/-- `_search_year` with `max_retries` attempts, attempt `i` receiving
`resp i`. -/
def search_year (resp : Nat → HTTPResponse) (maxRetries : Nat) : List String :=
  searchYearLoop ((List.range maxRetries).map fun i => resp (i + 1))

/-- The response consumed by the first attempt that is not rate-limited
(`none` when every attempt hits HTTP 429). -/
def firstNon429 (resps : List HTTPResponse) : Option HTTPResponse :=
  resps.find? fun r => decide (r.status ≠ 429)

example : search_year (fun _ => ⟨429, ["9"]⟩) 3 = [] := by decide

example : search_year (fun i => if i = 1 then ⟨429, []⟩ else ⟨200, ["42"]⟩) 3 =
    ["42"] := by decide

example : search_year (fun _ => ⟨500, ["9"]⟩) 3 = [] := by decide

/-! ## Claims about pair extraction -/

theorem mem_validGenes (raws : List String) (g : String) :
    g ∈ validGenes raws ↔ g ∈ raws ∧ pyIsDigit g = true := by
  simp [validGenes, mem_firstOccs, List.mem_filter]

theorem mem_validDiseases (raws : List String) (d : String) :
    d ∈ validDiseases raws ↔ d ∈ raws ∧ nerDiseaseKeep d = true := by
  simp [validDiseases, mem_firstOccs, List.mem_filter]

theorem length_flatMap_map {α β γ : Type} (gs : List α) (ds : List β)
    (f : α → β → γ) :
    (gs.flatMap fun g => ds.map (f g)).length = gs.length * ds.length := by
  induction gs with
  | nil => simp
  | cons g gs ih =>
    simp [List.flatMap_cons, ih, Nat.succ_mul, Nat.add_comm]

/-- **C1.** For every document processed by pair extraction, the returned pairs
for that document are exactly the full cross-product of its distinct valid gene
identifiers and distinct valid disease identifiers, each pair carrying the
document's pmid and year: membership is exactly "valid gene × valid disease
with this pmid and year", the list is duplicate-free, its length is the product
of the two distinct counts, and a document with genes `{"1","2"}` and diseases
`{"D000001"}` yields exactly the two pairs `(pmid,"1","D000001",year)` and
`(pmid,"2","D000001",year)`. -/
theorem claim_C1 (pmid year : String) (geneRaws diseaseRaws : List String) :
    (∀ q : GDPair, q ∈ perDocPairs pmid year geneRaws diseaseRaws ↔
      ∃ g d, g ∈ geneRaws ∧ pyIsDigit g = true ∧ d ∈ diseaseRaws ∧
        nerDiseaseKeep d = true ∧ q = ⟨pmid, g, d, year⟩)
    ∧ (perDocPairs pmid year geneRaws diseaseRaws).Nodup
    ∧ (perDocPairs pmid year geneRaws diseaseRaws).length =
        (validGenes geneRaws).length * (validDiseases diseaseRaws).length
    ∧ perDocPairs pmid year ["1", "2"] ["D000001"] =
        [⟨pmid, "1", "D000001", year⟩, ⟨pmid, "2", "D000001", year⟩] := by
  refine ⟨fun q => ?_, ?_, ?_, ?_⟩
  · simp only [perDocPairs, List.mem_flatMap, List.mem_map, mem_validGenes,
      mem_validDiseases]
    constructor
    · rintro ⟨g, ⟨hg, hgd⟩, d, ⟨hd, hdk⟩, rfl⟩
      exact ⟨g, d, hg, hgd, hd, hdk, rfl⟩
    · rintro ⟨g, d, hg, hgd, hd, hdk, rfl⟩
      exact ⟨g, ⟨hg, hgd⟩, d, ⟨hd, hdk⟩, rfl⟩
  · refine List.nodup_flatMap.2 ⟨fun g _ => ?_, ?_⟩
    · exact (nodup_firstOccs _).map fun d d' h => by
        injection h
    · refine (nodup_firstOccs _).imp ?_
      intro g g' hne q hq hq'
      rcases List.mem_map.1 hq with ⟨d, _, rfl⟩
      rcases List.mem_map.1 hq' with ⟨d', _, h⟩
      injection h with h1 h2 h3 h4
      exact hne h2.symm
  · exact length_flatMap_map _ _ _
  · rfl

/-- **C7.** Pair extraction keeps a gene identifier exactly when it is a
digit-only string and keeps a disease identifier exactly when it either
contains `':'` with an alphanumeric part after the first `':'` or is the
letter `D` followed by digits; in particular gene `"ABC"` is dropped even when
the document contains the valid disease `"MESH:D000123"` (the document yields
no pair at all), and disease `"XYZ"` is dropped. -/
theorem claim_C7 (pmid year : String) :
    (∀ raws g, g ∈ validGenes raws ↔ g ∈ raws ∧ pyIsDigit g = true)
    ∧ (∀ raws d, d ∈ validDiseases raws ↔ d ∈ raws ∧
        ((d.data.contains ':' = true ∧
            pyIsAlnumChars (afterFirstColon d.data) = true) ∨
         (d.data.contains ':' = false ∧ startsWithChars ['D'] d.data = true ∧
            pyIsDigitChars (d.data.drop 1) = true)))
    ∧ validGenes ["ABC"] = []
    ∧ validDiseases ["MESH:D000123", "XYZ"] = ["MESH:D000123"]
    ∧ perDocPairs pmid year ["ABC"] ["MESH:D000123", "XYZ"] = [] := by
  refine ⟨mem_validGenes, fun raws d => ?_, by decide, by decide, rfl⟩
  rw [mem_validDiseases]
  refine and_congr_right fun _ => ?_
  unfold nerDiseaseKeep
  by_cases hc : ':' ∈ d.data
  · simp [hc]
  · simp [hc]

/-! ## Claims about temporal statistics -/

theorem maxBySnd_mem : ∀ (ps : List (Int × Nat)) (best : Int × Nat),
    maxBySnd best ps ∈ best :: ps
  | [], best => by simp [maxBySnd]
  | p :: ps, best => by
    by_cases hb : best.2 < p.2
    · have h := maxBySnd_mem ps p
      simp only [maxBySnd, if_pos hb]
      rcases List.mem_cons.1 h with h1 | h1 <;> simp [h1]
    · have h := maxBySnd_mem ps best
      simp only [maxBySnd, if_neg hb]
      rcases List.mem_cons.1 h with h1 | h1 <;> simp [h1]

theorem maxBySnd_ge_init : ∀ (ps : List (Int × Nat)) (best : Int × Nat),
    best.2 ≤ (maxBySnd best ps).2
  | [], best => le_refl _
  | p :: ps, best => by
    by_cases hb : best.2 < p.2
    · have h := maxBySnd_ge_init ps p
      simp only [maxBySnd, if_pos hb]
      exact le_trans (le_of_lt hb) h
    · have h := maxBySnd_ge_init ps best
      simpa only [maxBySnd, if_neg hb] using h

theorem maxBySnd_ge : ∀ (ps : List (Int × Nat)) (best : Int × Nat),
    ∀ q ∈ best :: ps, q.2 ≤ (maxBySnd best ps).2
  | [], best, q, hq => by
    rcases List.mem_cons.1 hq with rfl | h1
    · exact le_refl _
    · simp at h1
  | p :: ps, best, q, hq => by
    by_cases hb : best.2 < p.2
    · simp only [maxBySnd, if_pos hb]
      rcases List.mem_cons.1 hq with rfl | h1
      · exact le_trans (le_of_lt hb) (maxBySnd_ge_init ps p)
      · exact maxBySnd_ge ps p q h1
    · simp only [maxBySnd, if_neg hb]
      rcases List.mem_cons.1 hq with rfl | h1
      · exact maxBySnd_ge_init ps q
      · rcases List.mem_cons.1 h1 with rfl | h2
        · exact le_trans (Nat.le_of_not_lt hb) (maxBySnd_ge_init ps best)
        · exact maxBySnd_ge ps best q (List.mem_cons_of_mem _ h2)

theorem listMin_le_init : ∀ (ys : List Int) (x : Int), listMin x ys ≤ x
  | [], x => le_refl x
  | y :: ys, x =>
    le_trans (listMin_le_init ys (min x y)) (min_le_left x y)

theorem listMin_le : ∀ (ys : List Int) (x : Int), ∀ z ∈ x :: ys, listMin x ys ≤ z
  | [], x, z, hz => by
    rcases List.mem_cons.1 hz with rfl | h1
    · exact le_refl _
    · simp at h1
  | y :: ys, x, z, hz => by
    rcases List.mem_cons.1 hz with rfl | h1
    · exact le_trans (listMin_le_init ys (min z y)) (min_le_left z y)
    · rcases List.mem_cons.1 h1 with rfl | h2
      · exact le_trans (listMin_le_init ys (min x z)) (min_le_right x z)
      · exact listMin_le ys (min x y) z (List.mem_cons_of_mem _ h2)

theorem listMin_mem : ∀ (ys : List Int) (x : Int), listMin x ys ∈ x :: ys
  | [], x => by simp [listMin]
  | y :: ys, x => by
    have h := listMin_mem ys (min x y)
    simp only [listMin]
    rcases List.mem_cons.1 h with h1 | h1
    · rw [h1]
      rcases min_choice x y with hm | hm <;> rw [hm] <;> simp
    · simp [h1]

theorem counterOf_keys (l : List Int) :
    (counterOf l).map Prod.fst = firstOccs l := by
  rw [counterOf, List.map_map]
  have h : ∀ m : List Int, m.map (Prod.fst ∘ fun k => (k, l.count k)) = m := by
    intro m
    induction m with
    | nil => rfl
    | cons a as ih => simp only [List.map_cons, Function.comp, ih]
  exact h _

theorem counterOf_cons (y : Int) (ys : List Int) :
    counterOf (y :: ys) =
      ((y, (y :: ys).count y)) ::
        ((firstOccs ys).filter (fun b => decide (b ≠ y))).map
          (fun k => (k, (y :: ys).count k)) := by
  simp [counterOf, firstOccs]

theorem statsOf_total_ne_zero (y : Int) (ys : List Int) :
    totalOf (counterOf (y :: ys)) ≠ 0 := by
  rw [counterOf_cons]
  simp only [totalOf, List.map_cons, List.sum_cons, List.count_cons_self]
  omega

theorem statsOf_spec (y : Int) (ys : List Int) :
    ((statsOf y ys).first_mention ∈ y :: ys ∧
      ∀ z ∈ y :: ys, (statsOf y ys).first_mention ≤ z) ∧
    (((statsOf y ys).peak_year, (statsOf y ys).peak_count) ∈ counterOf (y :: ys) ∧
      ∀ q ∈ counterOf (y :: ys), q.2 ≤ (statsOf y ys).peak_count) ∧
    (statsOf y ys).total_mentions = ((counterOf (y :: ys)).map Prod.snd).sum ∧
    (statsOf y ys).time_to_peak =
      (statsOf y ys).peak_year - (statsOf y ys).first_mention ∧
    (statsOf y ys).burstiness =
      ((statsOf y ys).peak_count : ℚ) / ((statsOf y ys).total_mentions : ℚ) := by
  obtain ⟨c, cs, hcnt⟩ : ∃ c cs, counterOf (y :: ys) = c :: cs :=
    ⟨_, _, counterOf_cons y ys⟩
  have hkeys : c.1 :: cs.map Prod.fst = firstOccs (y :: ys) := by
    rw [← counterOf_keys, hcnt, List.map_cons]
  have hfm : (statsOf y ys).first_mention = listMin c.1 (cs.map Prod.fst) := by
    simp only [statsOf, hcnt, firstKey]
  have hpy : (statsOf y ys).peak_year = (maxBySnd c cs).1 := by
    simp only [statsOf, hcnt, peakOf]
  have hpc : (statsOf y ys).peak_count = (maxBySnd c cs).2 := by
    simp only [statsOf, hcnt, peakOf]
  refine ⟨⟨?_, ?_⟩, ⟨?_, ?_⟩, ?_, ?_, ?_⟩
  · rw [hfm, ← mem_firstOccs, ← hkeys]
    exact listMin_mem _ _
  · intro z hz
    rw [hfm]
    refine listMin_le _ _ z ?_
    rw [hkeys, mem_firstOccs]
    exact hz
  · rw [hpy, hpc, hcnt, Prod.mk.eta]
    exact maxBySnd_mem cs c
  · intro q hq
    rw [hpc]
    rw [hcnt] at hq
    exact maxBySnd_ge cs c q hq
  · simp only [statsOf, totalOf]
  · simp only [statsOf]
  · simp only [statsOf, totalOf, if_neg (statsOf_total_ne_zero y ys)]
    rw [if_neg]
    exact fun h => statsOf_total_ne_zero y ys (by simpa [totalOf] using h)

/-- **C2.** For every edge whose year histogram is non-empty (the analyzer
returned statistics), `firstMention` is the minimum of the parsed years,
`(peakYear, peakCount)` is an entry of the year histogram attaining the maximal
count, `totalMentions` is the sum of the histogram counts,
`timeToPeak = peakYear - firstMention` and
`burstiness = peakCount / totalMentions`; in particular years
`[2000, 2000, 2001]` yield `firstMention = 2000`, `peakYear = 2000`,
`peakCount = 2`, `totalMentions = 3`, `timeToPeak = 0`, `burstiness = 2/3`. -/
theorem claim_C2 (raw : List String) (st : TStats)
    (h : analyzeEdgeYears raw = some st) :
    ((st.first_mention ∈ (raw.filter pyIsDigit).map pyInt ∧
        ∀ z ∈ (raw.filter pyIsDigit).map pyInt, st.first_mention ≤ z) ∧
      ((st.peak_year, st.peak_count) ∈
          counterOf ((raw.filter pyIsDigit).map pyInt) ∧
        ∀ q ∈ counterOf ((raw.filter pyIsDigit).map pyInt),
          q.2 ≤ st.peak_count) ∧
      st.total_mentions =
        ((counterOf ((raw.filter pyIsDigit).map pyInt)).map Prod.snd).sum ∧
      st.time_to_peak = st.peak_year - st.first_mention ∧
      st.burstiness = (st.peak_count : ℚ) / (st.total_mentions : ℚ)) ∧
    analyzeEdgeYears ["2000", "2000", "2001"] =
      some ⟨2000, 2000, 0, 3, 2, (2 : ℚ) / 3⟩ := by
  constructor
  · cases hy : (raw.filter pyIsDigit).map pyInt with
    | nil =>
      rw [analyzeEdgeYears, hy] at h
      cases h
    | cons y ys =>
      rw [analyzeEdgeYears, hy] at h
      simp only [Option.some.injEq] at h
      rw [← h]
      exact statsOf_spec y ys
  · have hp : (["2000", "2000", "2001"].filter pyIsDigit).map pyInt =
        [2000, 2000, 2001] := by decide
    have hc : counterOf [2000, 2000, 2001] = [(2000, 2), (2001, 1)] := by decide
    simp only [analyzeEdgeYears, hp, statsOf, hc]
    norm_num [maxBySnd, listMin, firstKey, peakOf, totalOf]

theorem claim_C2_witness :
    analyzeEdgeYears ["2000", "2000", "2001"] =
      some ⟨2000, 2000, 0, 3, 2, (2 : ℚ) / 3⟩ :=
  (claim_C2 ["2000", "2000", "2001"] ⟨2000, 2000, 0, 3, 2, (2 : ℚ) / 3⟩
    (by
      have hp : (["2000", "2000", "2001"].filter pyIsDigit).map pyInt =
          [2000, 2000, 2001] := by decide
      have hc : counterOf [2000, 2000, 2001] = [(2000, 2), (2001, 1)] := by decide
      simp only [analyzeEdgeYears, hp, statsOf, hc]
      norm_num [maxBySnd, listMin, firstKey, peakOf, totalOf])).2

theorem find?_congrOn {α : Type} (l : List α) (p q : α → Bool)
    (h : ∀ x ∈ l, p x = q x) : l.find? p = l.find? q := by
  induction l with
  | nil => rfl
  | cons a as ih =>
    have ha := h a (List.mem_cons_self a as)
    cases hq : q a with
    | true =>
      rw [List.find?_cons_of_pos _ (ha.trans hq), List.find?_cons_of_pos _ hq]
    | false =>
      rw [List.find?_cons_of_neg _ (by rw [ha, hq]; exact Bool.false_ne_true),
        List.find?_cons_of_neg _ (by rw [hq]; exact Bool.false_ne_true),
        ih fun x hx => h x (List.mem_cons_of_mem _ hx)]

theorem find?_cons_true {α : Type} (p : α → Bool) (a : α) (l : List α)
    (h : p a = true) : (a :: l).find? p = some a := by
  simp [List.find?_cons, h]

theorem find?_cons_false {α : Type} (p : α → Bool) (a : α) (l : List α)
    (h : p a = false) : (a :: l).find? p = l.find? p := by
  simp [List.find?_cons, h]

/-- Python `max(cnt.items(), key=lambda x: x[1])` returns the first item of
`cnt` (in iteration order) attaining the maximal count: the tie-break policy
of the source, stated as a `find?`. -/
theorem maxBySnd_eq_first_argmax :
    ∀ (cs : List (Int × Nat)) (c : Int × Nat),
      ((c :: cs).find? fun p => (c :: cs).all fun q => decide (q.2 ≤ p.2)) =
        some (maxBySnd c cs)
  | [], c => by
    rw [find?_cons_true (fun p => ([c] : List (Int × Nat)).all fun q =>
      decide (q.2 ≤ p.2)) c [] (by simp)]
    rfl
  | r :: rs, c => by
    by_cases hb : c.2 < r.2
    · have hc : ((c :: r :: rs).all fun q => decide (q.2 ≤ c.2)) = false := by
        rw [Bool.eq_false_iff]
        simp only [ne_eq, List.all_eq_true, not_forall]
        exact ⟨r, ⟨by simp, by simp; omega⟩⟩
      rw [find?_cons_false (fun p => (c :: r :: rs).all fun q =>
        decide (q.2 ≤ p.2)) c (r :: rs) hc]
      have hcong : ∀ x ∈ r :: rs,
          ((c :: r :: rs).all fun q => decide (q.2 ≤ x.2)) =
          ((r :: rs).all fun q => decide (q.2 ≤ x.2)) := by
        intro x hx
        cases hs : ((r :: rs).all fun q => decide (q.2 ≤ x.2)) with
        | true =>
          have hr : r.2 ≤ x.2 := by
            rw [List.all_eq_true] at hs
            simpa using hs r (by simp)
          rw [List.all_cons, hs]
          simp [le_trans (le_of_lt hb) hr]
        | false =>
          rw [List.all_cons, hs]
          simp
      rw [find?_congrOn _ _ _ hcong, maxBySnd_eq_first_argmax rs r]
      simp only [maxBySnd, if_pos hb]
    · have hble : r.2 ≤ c.2 := Nat.le_of_not_lt hb
      have hPc : ((c :: r :: rs).all fun q => decide (q.2 ≤ c.2)) =
          ((c :: rs).all fun q => decide (q.2 ≤ c.2)) := by
        simp only [List.all_cons]
        rw [decide_eq_true hble]
        simp
      cases hmed : ((c :: rs).all fun q => decide (q.2 ≤ c.2)) with
      | true =>
        rw [find?_cons_true (fun p => (c :: r :: rs).all fun q =>
          decide (q.2 ≤ p.2)) c (r :: rs) (hPc.trans hmed)]
        have h1 : ((c :: rs).find? fun p => (c :: rs).all fun q =>
            decide (q.2 ≤ p.2)) = some c :=
          find?_cons_true (fun p => (c :: rs).all fun q =>
            decide (q.2 ≤ p.2)) c rs hmed
        have h2 := maxBySnd_eq_first_argmax rs c
        rw [h1] at h2
        injection h2 with h3
        rw [maxBySnd, if_neg hb, ← h3]
      | false =>
        rw [find?_cons_false (fun p => (c :: r :: rs).all fun q =>
          decide (q.2 ≤ p.2)) c (r :: rs) (hPc.trans hmed)]
        have hrfail : ((c :: r :: rs).all fun q => decide (q.2 ≤ r.2)) = false := by
          rw [Bool.eq_false_iff]
          intro hall
          rw [Bool.eq_false_iff] at hmed
          apply hmed
          rw [List.all_eq_true] at hall ⊢
          intro q hq
          have hq' : q ∈ c :: r :: rs := by
            rcases List.mem_cons.1 hq with rfl | hmem
            · simp
            · simp [List.mem_cons_of_mem, hmem]
          have hqr := hall q hq'
          simp only [decide_eq_true_eq] at hqr ⊢
          omega
        rw [find?_cons_false (fun p => (c :: r :: rs).all fun q =>
          decide (q.2 ≤ p.2)) r rs hrfail]
        have hcong : ∀ x ∈ rs,
            ((c :: r :: rs).all fun q => decide (q.2 ≤ x.2)) =
            ((c :: rs).all fun q => decide (q.2 ≤ x.2)) := by
          intro x hx
          simp only [List.all_cons]
          cases hdc : decide (c.2 ≤ x.2) with
          | false => simp
          | true =>
            have hcx : c.2 ≤ x.2 := of_decide_eq_true hdc
            rw [decide_eq_true (le_trans hble hcx)]
            simp
        have h2 := maxBySnd_eq_first_argmax rs c
        rw [find?_cons_false (fun p => (c :: rs).all fun q =>
          decide (q.2 ≤ p.2)) c rs hmed] at h2
        rw [find?_congrOn _ _ _ hcong, h2, maxBySnd, if_neg hb]

/-- **C8.** Peak-year selection is deterministic: the pair
`(peakYear, peakCount)` computed by the analyzer is exactly the first entry of
the year histogram (in its fixed first-occurrence iteration order) attaining
the maximal count — a fixed function of the input year list, so two runs on
the same input agree; in particular the tied input years `[2000, 2001]`
(count 1 each) always resolve to `peakYear = 2000`, and the reversed input
`[2001, 2000]` always to `peakYear = 2001`. -/
theorem claim_C8 (y : Int) (ys : List Int) :
    ((counterOf (y :: ys)).find?
        (fun p => (counterOf (y :: ys)).all fun q => decide (q.2 ≤ p.2)) =
      some ((statsOf y ys).peak_year, (statsOf y ys).peak_count))
    ∧ analyzeEdgeYears ["2000", "2001"] = analyzeEdgeYears ["2000", "2001"]
    ∧ (statsOf 2000 [2001]).peak_year = 2000
    ∧ (statsOf 2001 [2000]).peak_year = 2001 := by
  obtain ⟨c, cs, hcnt⟩ : ∃ c cs, counterOf (y :: ys) = c :: cs :=
    ⟨_, _, counterOf_cons y ys⟩
  refine ⟨?_, rfl, by decide, by decide⟩
  have hpy : (statsOf y ys).peak_year = (maxBySnd c cs).1 := by
    simp only [statsOf, hcnt, peakOf]
  have hpc : (statsOf y ys).peak_count = (maxBySnd c cs).2 := by
    simp only [statsOf, hcnt, peakOf]
  rw [hcnt, hpy, hpc, Prod.mk.eta]
  exact maxBySnd_eq_first_argmax cs c

/-! ## Claims about graph construction -/

theorem typeOf_append_some (ns ms : List (String × NodeType)) (s : String)
    (t : NodeType) (h : typeOf ns s = some t) : typeOf (ns ++ ms) s = some t := by
  induction ns with
  | nil => simp [typeOf] at h
  | cons a ns ih =>
    obtain ⟨k, t'⟩ := a
    by_cases hk : s = k
    · simp only [typeOf, if_pos hk] at h
      simp only [List.cons_append, typeOf, if_pos hk]
      exact h
    · simp only [typeOf, if_neg hk] at h
      simp only [List.cons_append, typeOf, if_neg hk]
      exact ih h

theorem typeOf_append_self (ns : List (String × NodeType)) (s : String)
    (t : NodeType) (h : typeOf ns s = none) :
    typeOf (ns ++ [(s, t)]) s = some t := by
  induction ns with
  | nil => simp [typeOf]
  | cons a ns ih =>
    obtain ⟨k, t'⟩ := a
    by_cases hk : s = k
    · simp only [typeOf, if_pos hk] at h
      cases h
    · simp only [typeOf, if_neg hk] at h
      simp only [List.cons_append, typeOf, if_neg hk]
      exact ih h

theorem typeOf_mem (ns : List (String × NodeType)) (s : String) (t : NodeType)
    (h : typeOf ns s = some t) : (s, t) ∈ ns := by
  induction ns with
  | nil => simp [typeOf] at h
  | cons a ns ih =>
    obtain ⟨k, t'⟩ := a
    by_cases hk : s = k
    · simp only [typeOf, if_pos hk] at h
      injection h with h1
      rw [hk, h1]
      exact List.mem_cons_self _ _
    · simp only [typeOf, if_neg hk] at h
      exact List.mem_cons_of_mem _ (ih h)

theorem addNode_edges (G : GDGraph) (s : String) (t : NodeType) :
    (addNode G s t).edges = G.edges := by
  unfold addNode
  split <;> rfl

theorem addNode_mem (G : GDGraph) (s : String) (t : NodeType) (s' : String)
    (t' : NodeType) (h : (s', t') ∈ (addNode G s t).nodes) :
    (s', t') ∈ G.nodes ∨ (s', t') = (s, t) := by
  unfold addNode at h
  split at h
  · exact .inl h
  · rcases List.mem_append.1 h with h1 | h1
    · exact .inl h1
    · exact .inr (List.mem_singleton.1 h1)

theorem typeOf_addNode_preserve (G : GDGraph) (s : String) (t : NodeType)
    (s' : String) (t' : NodeType) (h : typeOf G.nodes s' = some t') :
    typeOf (addNode G s t).nodes s' = some t' := by
  unfold addNode
  split
  · exact h
  · exact typeOf_append_some _ _ _ _ h

theorem typeOf_addNode_self (G : GDGraph) (s : String) (t : NodeType)
    (hnone : typeOf G.nodes s = none) :
    typeOf (addNode G s t).nodes s = some t := by
  unfold addNode
  rw [hnone]
  simp only [Option.isSome_none, Bool.false_eq_true, if_false]
  exact typeOf_append_self _ _ _ hnone

/-- Valid gene identifiers (digit-only) and valid disease identifiers
(`MESH:`/`OMIM:` prefix or `D`+digits) are disjoint sets of strings. -/
theorem valid_disjoint (s : String) (hg : is_valid_gene_id s = true) :
    is_valid_disease_id s = false := by
  unfold is_valid_gene_id pyIsDigit pyIsDigitChars at hg
  rw [Bool.and_eq_true] at hg
  obtain ⟨hne, hdig⟩ := hg
  cases hd : s.data with
  | nil => rw [hd] at hne; simp at hne
  | cons c cs =>
    rw [hd] at hdig
    rw [List.all_cons, Bool.and_eq_true] at hdig
    obtain ⟨hc, _⟩ := hdig
    have hM : ¬ ('M' = c) := by
      intro h
      rw [← h] at hc
      exact absurd hc (by decide)
    have hO : ¬ ('O' = c) := by
      intro h
      rw [← h] at hc
      exact absurd hc (by decide)
    have hD : ¬ ('D' = c) := by
      intro h
      rw [← h] at hc
      exact absurd hc (by decide)
    unfold is_valid_disease_id
    rw [hd]
    simp [startsWithChars, hM, hO, hD]

/-- The structural invariant the pair fold maintains: every node's type
attribute records a correspondingly valid identifier, and every edge joins a
gene-typed `src` to a disease-typed `dst` and has evidence arrays of equal
length. -/
def graphInv (G : GDGraph) : Prop :=
  (∀ s t, (s, t) ∈ G.nodes →
    (t = NodeType.gene → is_valid_gene_id s = true) ∧
    (t = NodeType.disease → is_valid_disease_id s = true)) ∧
  ∀ e ∈ G.edges, typeOf G.nodes e.src = some NodeType.gene ∧
    typeOf G.nodes e.dst = some NodeType.disease ∧
    e.pmids.length = e.years.length

theorem addPairEdges_inv (G2 : GDGraph) (p : GDPair)
    (hn : ∀ s t, (s, t) ∈ G2.nodes →
      (t = NodeType.gene → is_valid_gene_id s = true) ∧
      (t = NodeType.disease → is_valid_disease_id s = true))
    (hg : typeOf G2.nodes p.gene = some NodeType.gene)
    (hd : typeOf G2.nodes p.disease = some NodeType.disease)
    (he : ∀ e ∈ G2.edges, typeOf G2.nodes e.src = some NodeType.gene ∧
      typeOf G2.nodes e.dst = some NodeType.disease ∧
      e.pmids.length = e.years.length) :
    graphInv (addPairEdges G2 p) := by
  unfold addPairEdges
  split
  · refine ⟨hn, ?_⟩
    intro e he'
    rcases List.mem_map.1 he' with ⟨e0, he0, rfl⟩
    obtain ⟨h1, h2, h3⟩ := he e0 he0
    by_cases hm : edgeMatch p.gene p.disease e0 = true
    · rw [if_pos hm]
      exact ⟨h1, h2, by simp [h3]⟩
    · rw [if_neg hm]
      exact ⟨h1, h2, h3⟩
  · refine ⟨hn, ?_⟩
    intro e he'
    rcases List.mem_append.1 he' with h1 | h1
    · exact he e h1
    · rw [List.mem_singleton] at h1
      subst h1
      exact ⟨hg, hd, rfl⟩

theorem addPair_inv (G : GDGraph) (p : GDPair) (h : graphInv G) :
    graphInv (addPair G p) := by
  by_cases hv : (is_valid_gene_id p.gene && is_valid_disease_id p.disease) = true
  case neg =>
    unfold addPair
    rw [if_neg hv]
    exact h
  case pos =>
  have hv' := hv
  rw [Bool.and_eq_true] at hv'
  have hg : is_valid_gene_id p.gene = true := hv'.1
  have hd : is_valid_disease_id p.disease = true := hv'.2
  have hnodesInv : ∀ s t,
      (s, t) ∈ (addNode (addNode G p.gene NodeType.gene) p.disease
        NodeType.disease).nodes →
      (t = NodeType.gene → is_valid_gene_id s = true) ∧
      (t = NodeType.disease → is_valid_disease_id s = true) := by
    intro s t hst
    rcases addNode_mem _ _ _ _ _ hst with h1 | h1
    · rcases addNode_mem _ _ _ _ _ h1 with h2 | h2
      · exact h.1 s t h2
      · injection h2 with h2a h2b
        subst h2a
        subst h2b
        refine ⟨fun _ => hg, fun hT => ?_⟩
        exact absurd hT (by decide)
    · injection h1 with h1a h1b
      subst h1a
      subst h1b
      refine ⟨fun hT => ?_, fun _ => hd⟩
      exact absurd hT (by decide)
  have htg : typeOf (addNode G p.gene NodeType.gene).nodes p.gene =
      some NodeType.gene := by
    cases hT : typeOf G.nodes p.gene with
    | none => exact typeOf_addNode_self _ _ _ hT
    | some t =>
      have hprops := h.1 _ _ (typeOf_mem _ _ _ hT)
      cases t with
      | gene => exact typeOf_addNode_preserve _ _ _ _ _ hT
      | disease =>
        exfalso
        have hvd := hprops.2 rfl
        rw [valid_disjoint _ hg] at hvd
        cases hvd
  have htg2 : typeOf (addNode (addNode G p.gene NodeType.gene) p.disease
      NodeType.disease).nodes p.gene = some NodeType.gene :=
    typeOf_addNode_preserve _ _ _ _ _ htg
  have htd : typeOf (addNode (addNode G p.gene NodeType.gene) p.disease
      NodeType.disease).nodes p.disease = some NodeType.disease := by
    cases hT : typeOf (addNode G p.gene NodeType.gene).nodes p.disease with
    | none => exact typeOf_addNode_self _ _ _ hT
    | some t =>
      have hmem := typeOf_mem _ _ _ hT
      rcases addNode_mem _ _ _ _ _ hmem with h2 | h2
      · have hprops := h.1 _ _ h2
        cases t with
        | disease => exact typeOf_addNode_preserve _ _ _ _ _ hT
        | gene =>
          exfalso
          have hvg := hprops.1 rfl
          have hcontra := valid_disjoint p.disease hvg
          rw [hd] at hcontra
          cases hcontra
      · exfalso
        injection h2 with h2a h2b
        rw [h2a] at hd
        have hcontra := valid_disjoint p.gene hg
        rw [hd] at hcontra
        cases hcontra
  have hedges2 : (addNode (addNode G p.gene NodeType.gene) p.disease
      NodeType.disease).edges = G.edges := by
    rw [addNode_edges, addNode_edges]
  have hedgeInv : ∀ e ∈ (addNode (addNode G p.gene NodeType.gene) p.disease
      NodeType.disease).edges,
      typeOf (addNode (addNode G p.gene NodeType.gene) p.disease
        NodeType.disease).nodes e.src = some NodeType.gene ∧
      typeOf (addNode (addNode G p.gene NodeType.gene) p.disease
        NodeType.disease).nodes e.dst = some NodeType.disease ∧
      e.pmids.length = e.years.length := by
    intro e he
    rw [hedges2] at he
    obtain ⟨h1, h2, h3⟩ := h.2 e he
    exact ⟨typeOf_addNode_preserve _ _ _ _ _ (typeOf_addNode_preserve _ _ _ _ _ h1),
      typeOf_addNode_preserve _ _ _ _ _ (typeOf_addNode_preserve _ _ _ _ _ h2), h3⟩
  unfold addPair
  rw [if_pos hv]
  exact addPairEdges_inv _ _ hnodesInv htg2 htd hedgeInv

theorem build_inv (pairs : List GDPair) : graphInv (build_temporal_graph pairs) := by
  have haux : ∀ (ps : List GDPair) (G : GDGraph), graphInv G →
      graphInv (ps.foldl addPair G) := by
    intro ps
    induction ps with
    | nil => intro G h; exact h
    | cons p ps ih =>
      intro G h
      exact ih _ (addPair_inv G p h)
  refine haux pairs ⟨[], []⟩ ⟨?_, ?_⟩
  · intro s t hst
    simp at hst
  · intro e he
    simp at he

theorem analyzeGraphEdges_no_skip (G : GDGraph)
    (h : ∀ e ∈ G.edges, typeOf G.nodes e.src = some NodeType.gene ∧
      typeOf G.nodes e.dst = some NodeType.disease) :
    (analyzeGraphEdges G).2 = 0 := by
  unfold analyzeGraphEdges
  have haux : ∀ (es : List GDEdge) (acc : List EdgeRow × Nat),
      (∀ e ∈ es, typeOf G.nodes e.src = some NodeType.gene ∧
        typeOf G.nodes e.dst = some NodeType.disease) →
      (es.foldl (analyzeStep G) acc).2 = acc.2 := by
    intro es
    induction es with
    | nil => intro acc _; rfl
    | cons e es ih =>
      intro acc hall
      rw [List.foldl_cons, ih _ (fun e' he' => hall e' (List.mem_cons_of_mem _ he'))]
      obtain ⟨h1, h2⟩ := hall e (List.mem_cons_self _ _)
      unfold analyzeStep orientEdge
      rw [h1, h2]
      simp only [and_self, if_true]
      cases analyzeEdgeYears e.years <;> simp
  exact haux G.edges ([], 0) h

/-- **C4.** Every edge of the graph returned by `build_temporal_graph` has
parallel evidence lists with `len(pmids) = len(years)`; and for each
individual valid pair, a new edge is created with singleton lists while a
repeated occurrence of the same gene–disease pair appends one element at the
end of each list (preserving arrival order pairwise). -/
theorem claim_C4 :
    (∀ pairs : List GDPair, ∀ e ∈ (build_temporal_graph pairs).edges,
      e.pmids.length = e.years.length)
    ∧ (∀ (G : GDGraph) (p : GDPair),
        (is_valid_gene_id p.gene && is_valid_disease_id p.disease) = true →
        (G.edges.any (edgeMatch p.gene p.disease) = false →
          (addPair G p).edges =
            G.edges ++ [⟨p.gene, p.disease, [p.pmid], [p.year]⟩])
        ∧ (G.edges.any (edgeMatch p.gene p.disease) = true →
          (addPair G p).edges = G.edges.map fun e =>
            if edgeMatch p.gene p.disease e then
              ⟨e.src, e.dst, e.pmids ++ [p.pmid], e.years ++ [p.year]⟩
            else e)) := by
  constructor
  · intro pairs e he
    exact ((build_inv pairs).2 e he).2.2
  · intro G p hv
    constructor
    · intro hm
      unfold addPair
      rw [if_pos hv]
      unfold addPairEdges
      simp only [addNode_edges, hm, Bool.false_eq_true, if_false]
    · intro hm
      unfold addPair
      rw [if_pos hv]
      unfold addPairEdges
      simp only [addNode_edges, hm, if_true]

/-- **C10.** Valid gene identifiers (all-digit) and valid disease identifiers
(`MESH:`/`OMIM:` prefix or `D`+digits) are disjoint string sets, so in every
graph produced by `build_temporal_graph` each edge joins a node typed `gene`
to a node typed `disease` (no node is inserted with one type and later matched
as the other), and the analyzer's bad-endpoint-types branch is unreachable on
such graphs: its `skipped` counter is 0. -/
theorem claim_C10 :
    (∀ s : String, ¬ (is_valid_gene_id s = true ∧ is_valid_disease_id s = true))
    ∧ (∀ pairs : List GDPair, ∀ e ∈ (build_temporal_graph pairs).edges,
        typeOf (build_temporal_graph pairs).nodes e.src = some NodeType.gene ∧
        typeOf (build_temporal_graph pairs).nodes e.dst = some NodeType.disease)
    ∧ ∀ pairs : List GDPair,
        (analyzeGraphEdges (build_temporal_graph pairs)).2 = 0 := by
  refine ⟨?_, ?_, ?_⟩
  · rintro s ⟨hg, hd⟩
    rw [valid_disjoint s hg] at hd
    cases hd
  · intro pairs e he
    obtain ⟨h1, h2, _⟩ := (build_inv pairs).2 e he
    exact ⟨h1, h2⟩
  · intro pairs
    refine analyzeGraphEdges_no_skip _ fun e he => ?_
    obtain ⟨h1, h2, _⟩ := (build_inv pairs).2 e he
    exact ⟨h1, h2⟩


/-! ## Claims about retrieval caching -/

theorem retrieveStep_completed (now : Int) (search : Int → List String)
    (fetch : List String → List PubRecord) (done : List Int)
    (acc : CacheData × List String × Bool) (year : Int) :
    ((retrieveStep now search fetch done acc year).1).completed_years =
      if year ∈ done ∧ year ≠ now then acc.1.completed_years
      else if year ≠ now then acc.1.completed_years ++ [year]
      else acc.1.completed_years := by
  unfold retrieveStep
  by_cases h1 : year ∈ done ∧ year ≠ now
  · rw [if_pos h1, if_pos h1]
  · rw [if_neg h1, if_neg h1]
    by_cases h2 : (search year).isEmpty = true
    · rw [if_pos h2]
      by_cases h3 : year ≠ now
      · rw [if_pos h3, if_pos h3]
      · rw [if_neg h3, if_neg h3]
    · rw [if_neg h2]
      by_cases h4 : ((search year).filter fun p => !(acc.2.1.contains p)).isEmpty = true
      · rw [if_pos h4]
        by_cases h3 : year ≠ now
        · rw [if_pos h3, if_pos h3]
        · rw [if_neg h3, if_neg h3]
      · rw [if_neg h4]

theorem retrieveStep_cases (now : Int) (search : Int → List String)
    (fetch : List String → List PubRecord) (done : List Int)
    (acc : CacheData × List String × Bool) (year : Int) :
    retrieveStep now search fetch done acc year = acc ∨
      (retrieveStep now search fetch done acc year).2.2 = true := by
  unfold retrieveStep
  by_cases h1 : year ∈ done ∧ year ≠ now
  · rw [if_pos h1]
    left
    rfl
  · rw [if_neg h1]
    by_cases h2 : (search year).isEmpty = true
    · rw [if_pos h2]
      by_cases h3 : year ≠ now
      · rw [if_pos h3]
        right
        rfl
      · rw [if_neg h3]
        left
        rfl
    · rw [if_neg h2]
      by_cases h4 : ((search year).filter fun p => !(acc.2.1.contains p)).isEmpty = true
      · rw [if_pos h4]
        by_cases h3 : year ≠ now
        · rw [if_pos h3]
          right
          rfl
        · rw [if_neg h3]
          left
          rfl
      · rw [if_neg h4]
        right
        rfl

theorem retrieve_completed_aux (now : Int) (search : Int → List String)
    (fetch : List String → List PubRecord) (done : List Int) :
    ∀ (ys : List Int) (acc : CacheData × List String × Bool),
      ((ys.foldl (retrieveStep now search fetch done) acc).1).completed_years =
        acc.1.completed_years ++
          ys.filter (fun y => !(done.contains y) && decide (y ≠ now))
  | [], acc => by simp
  | y :: ys, acc => by
    rw [List.foldl_cons,
      retrieve_completed_aux now search fetch done ys
        (retrieveStep now search fetch done acc y),
      retrieveStep_completed]
    by_cases h1 : y ∈ done ∧ y ≠ now
    · rw [if_pos h1]
      have hcy : done.contains y = true := List.elem_iff.2 h1.1
      rw [List.filter_cons, hcy]
      simp
    · rw [if_neg h1]
      by_cases h3 : y ≠ now
      · rw [if_pos h3]
        have hnd : y ∉ done := fun hin => h1 ⟨hin, h3⟩
        have hcy : done.contains y = false := by
          rw [Bool.eq_false_iff]
          intro hc
          exact hnd (List.elem_iff.1 hc)
        rw [List.filter_cons, hcy, decide_eq_true h3]
        simp
      · rw [if_neg h3]
        rw [List.filter_cons, decide_eq_false h3, Bool.and_false]
        simp

theorem foldl_updated_mono (now : Int) (search : Int → List String)
    (fetch : List String → List PubRecord) (done : List Int) :
    ∀ (ys : List Int) (acc : CacheData × List String × Bool),
      acc.2.2 = true →
      ((ys.foldl (retrieveStep now search fetch done) acc).2).2 = true
  | [], _, h => h
  | y :: ys, acc, h => by
    rw [List.foldl_cons]
    refine foldl_updated_mono now search fetch done ys _ ?_
    rcases retrieveStep_cases now search fetch done acc y with hc | hc
    · rw [hc]
      exact h
    · exact hc

theorem foldl_id_of_not_updated (now : Int) (search : Int → List String)
    (fetch : List String → List PubRecord) (done : List Int) :
    ∀ (ys : List Int) (acc : CacheData × List String × Bool),
      ((ys.foldl (retrieveStep now search fetch done) acc).2).2 = false →
      ys.foldl (retrieveStep now search fetch done) acc = acc
  | [], _, _ => rfl
  | y :: ys, acc, h => by
    rw [List.foldl_cons] at h ⊢
    rcases retrieveStep_cases now search fetch done acc y with hc | hc
    · rw [hc] at h ⊢
      exact foldl_id_of_not_updated now search fetch done ys acc h
    · exfalso
      have hmono := foldl_updated_mono now search fetch done ys _ hc
      rw [h] at hmono
      cases hmono

theorem retrieve_full_data_eq (now : Int) (search : Int → List String)
    (fetch : List String → List PubRecord) (start endY : Int)
    (init : CacheData) :
    retrieve_full_data now search fetch start endY init =
      (((yearRange start endY).foldl
          (retrieveStep now search fetch init.completed_years)
          (init, init.records.map PubRecord.pmid, false)).1,
       (((yearRange start endY).foldl
          (retrieveStep now search fetch init.completed_years)
          (init, init.records.map PubRecord.pmid, false)).2).2) := rfl

/-- The completed-year characterization of one retrieval run: the final
`completed_years` is the loaded list plus exactly the years of the requested
range that were neither already completed nor the current calendar year. -/
theorem retrieve_completed (now : Int) (search : Int → List String)
    (fetch : List String → List PubRecord) (start endY : Int)
    (init : CacheData) :
    ((retrieve_full_data now search fetch start endY init).1).completed_years =
      init.completed_years ++
        (yearRange start endY).filter
          (fun y => !(init.completed_years.contains y) && decide (y ≠ now)) := by
  rw [retrieve_full_data_eq]
  exact retrieve_completed_aux now search fetch init.completed_years
    (yearRange start endY) (init, init.records.map PubRecord.pmid, false)

/-- **C3.** For every run of retrieval over any year range and any search and
fetch results, the current calendar year is never added to `completed_years`:
in the run's result and in the persisted cache state alike, the final list is
the loaded list plus exactly the non-current not-yet-completed years of the
range — a list the current year never belongs to; every other processed year
is added. -/
theorem claim_C3 (now start endY : Int) (search : Int → List String)
    (fetch : List String → List PubRecord) (init : CacheData) :
    ((retrieve_full_data now search fetch start endY init).1).completed_years =
      init.completed_years ++
        (yearRange start endY).filter
          (fun y => !(init.completed_years.contains y) && decide (y ≠ now))
    ∧ (persistedCache now search fetch start endY init).completed_years =
      init.completed_years ++
        (yearRange start endY).filter
          (fun y => !(init.completed_years.contains y) && decide (y ≠ now))
    ∧ now ∉ (yearRange start endY).filter
        (fun y => !(init.completed_years.contains y) && decide (y ≠ now)) := by
  refine ⟨retrieve_completed now search fetch start endY init, ?_, ?_⟩
  · unfold persistedCache
    cases hu : (retrieve_full_data now search fetch start endY init).2 with
    | true =>
      rw [if_pos hu]
      exact retrieve_completed now search fetch start endY init
    | false =>
      rw [if_neg (by rw [hu]; exact Bool.false_ne_true)]
      have h1 := retrieve_completed now search fetch start endY init
      have hu' : (((yearRange start endY).foldl
          (retrieveStep now search fetch init.completed_years)
          (init, init.records.map PubRecord.pmid, false)).2).2 = false := by
        rw [retrieve_full_data_eq] at hu
        exact hu
      have h2 : (retrieve_full_data now search fetch start endY init).1 = init := by
        rw [retrieve_full_data_eq,
          foldl_id_of_not_updated now search fetch init.completed_years _ _ hu']
      rw [h2] at h1
      exact h1
  · intro hmem
    rw [List.mem_filter] at hmem
    simp at hmem

theorem foldl_id_of_all_done (now : Int) (search : Int → List String)
    (fetch : List String → List PubRecord) (done : List Int) :
    ∀ (ys : List Int) (d : CacheData) (ex : List String),
      (∀ y ∈ ys, y ≠ now → y ∈ done) →
      (∀ y ∈ ys, ∀ p ∈ search y, p ∈ ex) →
      ys.foldl (retrieveStep now search fetch done) (d, ex, false) = (d, ex, false)
  | [], _, _, _, _ => rfl
  | y :: ys, d, ex, hdone, hsub => by
    rw [List.foldl_cons]
    have hstep : retrieveStep now search fetch done (d, ex, false) y =
        (d, ex, false) := by
      unfold retrieveStep
      by_cases h3 : y = now
      · have h1 : ¬ (y ∈ done ∧ y ≠ now) := by
          rintro ⟨_, hne⟩
          exact hne h3
        rw [if_neg h1]
        by_cases h2 : (search y).isEmpty = true
        · rw [if_pos h2, if_neg (fun hne => hne h3)]
        · rw [if_neg h2]
          have hfe : ((search y).filter fun p => !(ex.contains p)) = [] := by
            rw [List.filter_eq_nil_iff]
            intro p hp
            have hpex : p ∈ ex := hsub y (List.mem_cons_self _ _) p hp
            have hc : ex.contains p = true := List.elem_iff.2 hpex
            rw [hc]
            simp
          rw [if_pos (by rw [hfe]; rfl), if_neg (fun hne => hne h3)]
      · have h1 : y ∈ done ∧ y ≠ now :=
          ⟨hdone y (List.mem_cons_self _ _) h3, h3⟩
        rw [if_pos h1]
    rw [hstep]
    exact foldl_id_of_all_done now search fetch done ys d ex
      (fun z hz => hdone z (List.mem_cons_of_mem _ hz))
      (fun z hz => hsub z (List.mem_cons_of_mem _ hz))

/-- **C6.** Running retrieval twice in succession for the same term and year
range, when the second run's searches return no identifiers beyond those
already cached after the first run, leaves everything unchanged: the second
run returns the first run's state with `updated = false`, the persisted cache
file is untouched, and record pmids that were unique stay unique (no
duplicates are introduced). -/
theorem claim_C6 (now start endY : Int)
    (search1 search2 : Int → List String)
    (fetch1 fetch2 : List String → List PubRecord)
    (init S1 : CacheData)
    (hS1 : S1 = (retrieve_full_data now search1 fetch1 start endY init).1)
    (H : ∀ y ∈ yearRange start endY, ∀ p ∈ search2 y,
      p ∈ S1.records.map PubRecord.pmid) :
    retrieve_full_data now search2 fetch2 start endY S1 = (S1, false)
    ∧ persistedCache now search2 fetch2 start endY S1 = S1
    ∧ ((S1.records.map PubRecord.pmid).Nodup →
        (((retrieve_full_data now search2 fetch2 start endY S1).1).records.map
          PubRecord.pmid).Nodup) := by
  have hdone : ∀ y ∈ yearRange start endY, y ≠ now → y ∈ S1.completed_years := by
    intro y hy hyn
    rw [hS1, retrieve_completed, List.mem_append]
    by_cases hin : y ∈ init.completed_years
    · exact .inl hin
    · right
      rw [List.mem_filter]
      refine ⟨hy, ?_⟩
      have hc : init.completed_years.contains y = false := by
        rw [Bool.eq_false_iff]
        intro hcc
        exact hin (List.elem_iff.1 hcc)
      rw [hc, decide_eq_true hyn]
      rfl
  have hmain : retrieve_full_data now search2 fetch2 start endY S1 = (S1, false) := by
    rw [retrieve_full_data_eq,
      foldl_id_of_all_done now search2 fetch2 S1.completed_years
        (yearRange start endY) S1 (S1.records.map PubRecord.pmid) hdone H]
  refine ⟨hmain, ?_, ?_⟩
  · unfold persistedCache
    rw [hmain]
    rfl
  · intro hnd
    rw [hmain]
    exact hnd

theorem claim_C6_witness :
    retrieve_full_data 2021 (fun y => if y = 2020 then ["11"] else [])
        (fun ps => ps.map fun p => ⟨p, "T", "A", "2020"⟩) 2020 2021
        ⟨[2020], [⟨"11", "T", "A", "2020"⟩]⟩ =
      (⟨[2020], [⟨"11", "T", "A", "2020"⟩]⟩, false) :=
  (claim_C6 2021 2020 2021
    (fun y => if y = 2020 then ["11"] else [])
    (fun y => if y = 2020 then ["11"] else [])
    (fun ps => ps.map fun p => ⟨p, "T", "A", "2020"⟩)
    (fun ps => ps.map fun p => ⟨p, "T", "A", "2020"⟩)
    ⟨[], []⟩ ⟨[2020], [⟨"11", "T", "A", "2020"⟩]⟩
    (by decide) (by decide)).1

/-! ## Claims about the search retry loop -/

theorem searchYearLoop_empty : ∀ (resps : List HTTPResponse),
    (firstNon429 resps = none ∨
      ∃ r, firstNon429 resps = some r ∧ 400 ≤ r.status ∧ r.status < 600) →
    searchYearLoop resps = []
  | [], _ => rfl
  | r :: rest, h => by
    unfold searchYearLoop
    by_cases h429 : r.status = 429
    · rw [if_pos h429]
      have hfr : firstNon429 (r :: rest) = firstNon429 rest :=
        find?_cons_false _ _ _ (by simp [h429])
      refine searchYearLoop_empty rest ?_
      rcases h with h | ⟨q, hq, hq4, hq6⟩
      · exact .inl (hfr.symm.trans h)
      · exact .inr ⟨q, hfr.symm.trans hq, hq4, hq6⟩
    · rw [if_neg h429]
      have hfr : firstNon429 (r :: rest) = some r :=
        find?_cons_true _ _ _ (by simp [h429])
      rcases h with h | ⟨q, hq, hq4, hq6⟩
      · rw [hfr] at h
        cases h
      · rw [hfr] at hq
        injection hq with hq'
        subst hq'
        unfold raiseForStatus
        rw [if_pos ⟨hq4, hq6⟩]

/-- **C9.** The year search never raises to its caller for a rate-limit or
HTTP failure: for every sequence of responses the attempts receive, if every
attempt up to the retry cap is rate-limited (HTTP 429), or the first
non-rate-limited response is an HTTP error (status in `[400, 600)`, so
`raise_for_status` raises and the `except` swallows it), `_search_year`
returns the empty list; the loop is a total function, so no exception
propagates. -/
theorem claim_C9 (resp : Nat → HTTPResponse) (m : Nat)
    (h : firstNon429 ((List.range m).map fun i => resp (i + 1)) = none ∨
      ∃ r, firstNon429 ((List.range m).map fun i => resp (i + 1)) = some r ∧
        400 ≤ r.status ∧ r.status < 600) :
    search_year resp m = [] := by
  unfold search_year
  exact searchYearLoop_empty _ h

theorem claim_C9_witness :
    search_year (fun _ => HTTPResponse.mk 429 ["9"]) 3 = [] ∧
    search_year (fun _ => HTTPResponse.mk 503 ["9"]) 3 = [] :=
  ⟨claim_C9 (fun _ => HTTPResponse.mk 429 ["9"]) 3 (Or.inl (by decide)),
   claim_C9 (fun _ => HTTPResponse.mk 503 ["9"]) 3
     (Or.inr ⟨⟨503, ["9"]⟩, by decide, by decide, by decide⟩)⟩
